import Mathlib

/-!
Verification of the safe expression evaluator of `calculator.py`.

The program under study is a PyQt calculator whose computational core is the
function `evaluate`:

    def evaluate(expression: str) -> Any:
        try:
            code = compile(expression, "<string>", "eval")
        except SyntaxError as e:
            print(...)
            return "ERROR"
        for name in code.co_names:
            if name not in Calculator.ALLOWED_NAMES:
                raise NameError(f"The use of ... is not allowed")
        return eval(code, {"__builtins__": {}}, Calculator.ALLOWED_NAMES)

together with `Calculator.ALLOWED_NAMES` (the non-dunder attributes of the
`math` module) and the UI helper `Calculator._remove_last_digit`.

The embedding below models CPython `compile`/`eval` restricted to the
arithmetic expression grammar the calculator feeds it (integer and float
literals, `+ - * /`, unary minus and plus, parentheses, identifiers and
function calls with comma separated arguments).  Numbers are modelled
exactly: Python `int` by `Int` and Python `float` by an exact rational.
IEEE rounding of float operations is outside the rational model; every
outcome whose value the rational model cannot represent (an irrational
square root, the value of a float constant such as `pi`, a math function
other than `sqrt`) is marked by the dedicated exception-like constructor
`PyExc.modelGap` and is never produced on any input a theorem below
evaluates.  A value returned by the Python function is an `Except.ok`;
an exception that escapes the `evaluate` boundary is an `Except.error`.
-/

/-- Binary arithmetic operators of the expression grammar. -/
inductive BinOp
  | add
  | sub
  | mul
  | div
deriving DecidableEq, Repr

/-- Abstract syntax of a compiled arithmetic expression: the shape CPython
`compile(expression, "<string>", "eval")` produces on calculator input. -/
inductive Expr where
  | intLit (n : Nat)
  | floatLit (q : ℚ)
  | ident (name : String)
  | neg (a : Expr)
  | binop (op : BinOp) (a b : Expr)
  | call (fname : String) (args : List Expr)
deriving Repr

/-- Python runtime values the evaluator can compute: an `int` (arbitrary
precision) or a `float`, the latter modelled as an exact rational. -/
inductive NumVal
  | intV (n : Int)
  | floatV (q : ℚ)
deriving DecidableEq, Repr

/-- Rational content of a numeric value. -/
def NumVal.toRat : NumVal → ℚ
  | .intV n => (n : ℚ)
  | .floatV q => q

/-- Values crossing the `evaluate` boundary: a number, or the bare string
result `"ERROR"` that the source returns on a syntax error. -/
inductive PyVal
  | num (v : NumVal)
  | strV (s : String)
deriving DecidableEq, Repr

/-- Python exceptions that can escape `evaluate`.  `modelGap` is not a Python
exception: it marks outcomes whose exact value the rational model does not
represent (documented in the header); no theorem below reaches it. -/
inductive PyExc
  | nameError (msg : String)
  | zeroDivisionError (msg : String)
  | valueError (msg : String)
  | typeError (msg : String)
  | modelGap (msg : String)
deriving DecidableEq, Repr

namespace Calculator

/-- Keys of `math.__dict__` under CPython 3.9, dunder attributes included, in
the role of the reflectively enumerated dictionary the source comprehends
over.  Only the key set matters to the program: values are modelled by
`applyFunc` and `lookupConst` below. -/
def math_dict_keys : List String :=
  ["__name__", "__doc__", "__package__", "__loader__", "__spec__",
   "acos", "acosh", "asin", "asinh", "atan", "atan2", "atanh",
   "ceil", "comb", "copysign", "cos", "cosh", "degrees", "dist",
   "e", "erf", "erfc", "exp", "expm1", "fabs", "factorial", "floor",
   "fmod", "frexp", "fsum", "gamma", "gcd", "hypot", "inf", "isclose",
   "isfinite", "isinf", "isnan", "isqrt", "lcm", "ldexp", "lgamma",
   "log", "log10", "log1p", "log2", "modf", "nan", "nextafter",
   "perm", "pi", "pow", "prod", "radians", "remainder", "sin", "sinh",
   "sqrt", "tan", "tanh", "tau", "trunc", "ulp"]

/-- The allow-list of the source:
`{k: v for k, v in math.__dict__.items() if not k.startswith("__")}`,
modelled by its key set. -/
def ALLOWED_NAMES : List String :=
  math_dict_keys.filter (fun k => !(k.startsWith "__"))

end Calculator

mutual

/-- Names the compiled code object records in `co_names`: every identifier
the expression resolves at evaluation time, in first-use order (a called
function name is loaded before its arguments). -/
def coNames : Expr → List String
  | .intLit _ => []
  | .floatLit _ => []
  | .ident s => [s]
  | .neg a => coNames a
  | .binop _ a b => coNames a ++ coNames b
  | .call f args => f :: coNamesList args

/-- Names of a list of argument expressions, left to right. -/
def coNamesList : List Expr → List String
  | [] => []
  | a :: rest => coNames a ++ coNamesList rest

end

/-- Largest natural number whose square is at most `n`, by a structural
linear scan (kept structurally recursive so that the kernel evaluates it). -/
def natSqrtLin (n : Nat) : Nat :=
  (List.range (n + 1)).foldl (fun acc k => if k * k ≤ n then k else acc) 0

/-- Exact square root of a nonnegative rational, when it is rational:
`some r` with `r * r = q` when numerator and denominator are perfect
squares, `none` otherwise (negative argument, or irrational root). -/
def ratSqrtQ (q : ℚ) : Option ℚ :=
  if q < 0 then none
  else
    let n := q.num.toNat
    let d := q.den
    let sn := natSqrtLin n
    let sd := natSqrtLin d
    if sn * sn = n ∧ sd * sd = d then some ((sn : ℚ) / (sd : ℚ))
    else none

/-- Negation of a Python numeric value (`-x` preserves int/float kind). -/
def negV : NumVal → NumVal
  | .intV n => .intV (-n)
  | .floatV q => .floatV (-q)

/-- Whether both operands are Python ints (selects the int/float variant of
the zero-division message, as CPython does). -/
def bothInt : NumVal → NumVal → Bool
  | .intV _, .intV _ => true
  | _, _ => false

/-- Python binary arithmetic on numbers: `+ - *` stay `int` on two ints and
promote to `float` otherwise; `/` is true division, always `float`, raising
`ZeroDivisionError` on a zero divisor. -/
def applyBin : BinOp → NumVal → NumVal → Except PyExc NumVal
  | .add, .intV a, .intV b => Except.ok (.intV (a + b))
  | .add, x, y => Except.ok (.floatV (x.toRat + y.toRat))
  | .sub, .intV a, .intV b => Except.ok (.intV (a - b))
  | .sub, x, y => Except.ok (.floatV (x.toRat - y.toRat))
  | .mul, .intV a, .intV b => Except.ok (.intV (a * b))
  | .mul, x, y => Except.ok (.floatV (x.toRat * y.toRat))
  | .div, x, y =>
    if y.toRat = 0 then
      Except.error (PyExc.zeroDivisionError
        (if bothInt x y then "division by zero" else "float division by zero"))
    else Except.ok (.floatV (x.toRat / y.toRat))

/-- Evaluation-time lookup of a bare identifier against the restricted
globals `{"__builtins__": {}}` and locals `ALLOWED_NAMES`.  The numeric
float constants of `math` (`pi`, `e`, ...) are irrational or non-finite,
hence outside the rational model (`modelGap`); an absent name would raise
`NameError`.  Unreachable through `evaluate`, which checks names first. -/
def lookupConst (s : String) : Except PyExc NumVal :=
  if Calculator.ALLOWED_NAMES.contains s then
    Except.error (PyExc.modelGap ("numeric value of " ++ s ++ " not modelled"))
  else
    Except.error (PyExc.nameError ("name " ++ s ++ " is not defined"))

/-- Calling an allow-listed function on evaluated arguments.  `sqrt` is
modelled exactly: `ValueError` (math domain error) below zero, the exact
rational root when one exists, `modelGap` when the true result is an
irrational float.  The remaining `math` functions fall to `modelGap`, and a
name outside the mapping would raise `NameError` (unreachable through
`evaluate`). -/
def applyFunc (f : String) (vs : List NumVal) : Except PyExc NumVal :=
  if f = "sqrt" then
    match vs with
    | [v] =>
      if v.toRat < 0 then Except.error (PyExc.valueError "math domain error")
      else
        match ratSqrtQ v.toRat with
        | some r => Except.ok (.floatV r)
        | none => Except.error (PyExc.modelGap "irrational square root not represented")
    | _ => Except.error (PyExc.typeError "sqrt takes exactly one argument")
  else if Calculator.ALLOWED_NAMES.contains f then
    Except.error (PyExc.modelGap ("semantics of " ++ f ++ " not modelled"))
  else
    Except.error (PyExc.nameError ("name " ++ f ++ " is not defined"))

mutual

/-- Tree-walking model of CPython `eval` on a compiled arithmetic expression,
paired with the number of evaluation operations actually executed (an
operation count of zero means evaluation never ran).  Exceptions abort
evaluation and propagate. -/
def evalE : Expr → Except PyExc NumVal × Nat
  | .intLit n => (Except.ok (NumVal.intV (n : Int)), 1)
  | .floatLit q => (Except.ok (NumVal.floatV q), 1)
  | .ident s => (lookupConst s, 1)
  | .neg a =>
    match evalE a with
    | (Except.error ex, k) => (Except.error ex, k)
    | (Except.ok v, k) => (Except.ok (negV v), k + 1)
  | .binop op a b =>
    match evalE a with
    | (Except.error ex, k) => (Except.error ex, k)
    | (Except.ok va, ka) =>
      match evalE b with
      | (Except.error ex, kb) => (Except.error ex, ka + kb)
      | (Except.ok vb, kb) => (applyBin op va vb, ka + kb + 1)
  | .call f args =>
    match evalArgs args with
    | (Except.error ex, k) => (Except.error ex, k + 1)
    | (Except.ok vs, k) => (applyFunc f vs, k + 2)

/-- Left-to-right evaluation of call arguments, with operation count. -/
def evalArgs : List Expr → Except PyExc (List NumVal) × Nat
  | [] => (Except.ok [], 0)
  | a :: rest =>
    match evalE a with
    | (Except.error ex, k) => (Except.error ex, k)
    | (Except.ok v, k) =>
      match evalArgs rest with
      | (Except.error ex, k2) => (Except.error ex, k + k2)
      | (Except.ok vs, k2) => (Except.ok (v :: vs), k + k2)

end

/-- Tokens of the arithmetic expression grammar. -/
inductive Tok
  | intTok (n : Nat)
  | floatTok (q : ℚ)
  | identTok (s : String)
  | plusTok
  | minusTok
  | starTok
  | slashTok
  | lparenTok
  | rparenTok
  | commaTok
deriving DecidableEq, Repr

/-- Characters that may occur inside a numeric literal. -/
def numChar (c : Char) : Bool := c.isDigit || c = '.'

/-- Characters that may start an identifier. -/
def identStart (c : Char) : Bool := c.isAlpha || c = '_'

/-- Characters that may continue an identifier. -/
def identCont (c : Char) : Bool := c.isAlpha || c.isDigit || c = '_'

/-- Numeric value of a run of decimal digits. -/
def digitsToNat (cs : List Char) : Nat :=
  cs.foldl (fun acc c => acc * 10 + (c.toNat - 48)) 0

/-- Token of a maximal run of digit and dot characters: an integer literal
when there is no dot, a float literal with one dot, a lexing failure
otherwise (two dots, or a bare dot). -/
def numTokOfChunk (cs : List Char) : Option Tok :=
  let intPart := cs.takeWhile (fun c => c ≠ '.')
  let rest := cs.dropWhile (fun c => c ≠ '.')
  match rest with
  | [] => some (Tok.intTok (digitsToNat intPart))
  | _ :: frac =>
    if frac.contains '.' then none
    else if intPart.isEmpty ∧ frac.isEmpty then none
    else some (Tok.floatTok
      ((digitsToNat intPart : ℚ) + (digitsToNat frac : ℚ) / ((10 : ℚ) ^ frac.length)))

/-- Fueled scanner over the character list.  The fuel only bounds the loop;
with the initial fuel of `tokenize` it never runs out, since every step
consumes at least one character. -/
def tokenizeAux : Nat → List Char → Option (List Tok)
  | 0, _ => none
  | _ + 1, [] => some []
  | fuel + 1, c :: cs =>
    if c = ' ' || c = '\t' then tokenizeAux fuel cs
    else if numChar c then
      match numTokOfChunk ((c :: cs).takeWhile numChar) with
      | none => none
      | some t => (tokenizeAux fuel ((c :: cs).dropWhile numChar)).map (fun ts => t :: ts)
    else if identStart c then
      let name := String.mk ((c :: cs).takeWhile identCont)
      (tokenizeAux fuel ((c :: cs).dropWhile identCont)).map
        (fun ts => Tok.identTok name :: ts)
    else if c = '+' then (tokenizeAux fuel cs).map (fun ts => Tok.plusTok :: ts)
    else if c = '-' then (tokenizeAux fuel cs).map (fun ts => Tok.minusTok :: ts)
    else if c = '*' then (tokenizeAux fuel cs).map (fun ts => Tok.starTok :: ts)
    else if c = '/' then (tokenizeAux fuel cs).map (fun ts => Tok.slashTok :: ts)
    else if c = '(' then (tokenizeAux fuel cs).map (fun ts => Tok.lparenTok :: ts)
    else if c = ')' then (tokenizeAux fuel cs).map (fun ts => Tok.rparenTok :: ts)
    else if c = ',' then (tokenizeAux fuel cs).map (fun ts => Tok.commaTok :: ts)
    else none

/-- Lexer for expression strings; `none` is a lexical (syntax) failure. -/
def tokenize (s : String) : Option (List Tok) :=
  tokenizeAux (s.length + 1) s.toList

mutual

/-- Additive level of the recursive-descent parser (`+` and `-`, left
associative, binding weaker than `*` and `/`). -/
def parseE : Nat → List Tok → Option (Expr × List Tok)
  | 0, _ => none
  | fuel + 1, ts =>
    match parseT fuel ts with
    | none => none
    | some (e, rest) => parseESuffix fuel e rest

/-- Chain of additive operators after a first term. -/
def parseESuffix : Nat → Expr → List Tok → Option (Expr × List Tok)
  | 0, _, _ => none
  | fuel + 1, acc, Tok.plusTok :: ts =>
    match parseT fuel ts with
    | none => none
    | some (e, rest) => parseESuffix fuel (Expr.binop BinOp.add acc e) rest
  | fuel + 1, acc, Tok.minusTok :: ts =>
    match parseT fuel ts with
    | none => none
    | some (e, rest) => parseESuffix fuel (Expr.binop BinOp.sub acc e) rest
  | _ + 1, acc, ts => some (acc, ts)

/-- Multiplicative level of the parser (`*` and `/`, left associative). -/
def parseT : Nat → List Tok → Option (Expr × List Tok)
  | 0, _ => none
  | fuel + 1, ts =>
    match parseU fuel ts with
    | none => none
    | some (e, rest) => parseTSuffix fuel e rest

/-- Chain of multiplicative operators after a first factor. -/
def parseTSuffix : Nat → Expr → List Tok → Option (Expr × List Tok)
  | 0, _, _ => none
  | fuel + 1, acc, Tok.starTok :: ts =>
    match parseU fuel ts with
    | none => none
    | some (e, rest) => parseTSuffix fuel (Expr.binop BinOp.mul acc e) rest
  | fuel + 1, acc, Tok.slashTok :: ts =>
    match parseU fuel ts with
    | none => none
    | some (e, rest) => parseTSuffix fuel (Expr.binop BinOp.div acc e) rest
  | _ + 1, acc, ts => some (acc, ts)

/-- Unary level: prefix minus (negation) and prefix plus (identity). -/
def parseU : Nat → List Tok → Option (Expr × List Tok)
  | 0, _ => none
  | fuel + 1, Tok.minusTok :: ts =>
    match parseU fuel ts with
    | none => none
    | some (e, rest) => some (Expr.neg e, rest)
  | fuel + 1, Tok.plusTok :: ts => parseU fuel ts
  | fuel + 1, ts => parseAtom fuel ts

/-- Atoms: literals, identifiers, function calls and parenthesised
subexpressions. -/
def parseAtom : Nat → List Tok → Option (Expr × List Tok)
  | 0, _ => none
  | _ + 1, Tok.intTok n :: ts => some (Expr.intLit n, ts)
  | _ + 1, Tok.floatTok q :: ts => some (Expr.floatLit q, ts)
  | fuel + 1, Tok.identTok f :: Tok.lparenTok :: ts =>
    (match ts with
     | Tok.rparenTok :: rest => some (Expr.call f [], rest)
     | _ =>
       match parseE fuel ts with
       | none => none
       | some (a, rest) =>
         match parseArgsSuffix fuel rest with
         | none => none
         | some (args, rest2) => some (Expr.call f (a :: args), rest2))
  | _ + 1, Tok.identTok s :: ts => some (Expr.ident s, ts)
  | fuel + 1, Tok.lparenTok :: ts =>
    (match parseE fuel ts with
     | some (e, Tok.rparenTok :: rest) => some (e, rest)
     | _ => none)
  | _, _ => none

/-- Remaining comma separated call arguments up to the closing parenthesis. -/
def parseArgsSuffix : Nat → List Tok → Option (List Expr × List Tok)
  | 0, _ => none
  | fuel + 1, Tok.commaTok :: ts =>
    match parseE fuel ts with
    | none => none
    | some (a, rest) =>
      match parseArgsSuffix fuel rest with
      | none => none
      | some (args, rest2) => some (a :: args, rest2)
  | _ + 1, Tok.rparenTok :: ts => some ([], ts)
  | _, _ => none

end

/-- Model of `compile(expression, "<string>", "eval")`: lex and parse the
whole string under the arithmetic grammar; `none` is the `SyntaxError`
case.  The parser fuel is generous enough for every expression the
calculator can build (it fails only beyond a nesting depth linear in the
input length, a bound the spec itself recommends imposing). -/
def compileExpr (s : String) : Option Expr :=
  match tokenize s with
  | none => none
  | some ts =>
    match parseE (4 * s.length + 8) ts with
    | some (e, []) => some e
    | _ => none

/-- Direct translation of the source function `evaluate`, additionally
carrying the number of evaluation operations executed (zero whenever
control never reaches the `eval` call).  Control flow of the source:
compile, returning the plain string `"ERROR"` on a syntax error; then scan
`co_names` and raise `NameError` at the first name outside
`ALLOWED_NAMES`; only then evaluate the compiled code. -/
def evaluateCounted (expression : String) : Except PyExc PyVal × Nat :=
  match compileExpr expression with
  | none => (Except.ok (PyVal.strV "ERROR"), 0)
  | some code =>
    match (coNames code).find? (fun name => !(Calculator.ALLOWED_NAMES.contains name)) with
    | some name =>
      (Except.error (PyExc.nameError
        ("The use of \x27" ++ name ++ "\x27 is not allowed")), 0)
    | none =>
      match evalE code with
      | (Except.error ex, k) => (Except.error ex, k)
      | (Except.ok v, k) => (Except.ok (PyVal.num v), k)

/-- The evaluator of the source: result of `evaluateCounted`, forgetting the
operation count.  `Except.ok` is a value returned to the caller;
`Except.error` is an exception escaping the `evaluate` boundary. -/
def evaluate (expression : String) : Except PyExc PyVal :=
  (evaluateCounted expression).1

/-- Whether an outcome is an exception escaping `evaluate` (as opposed to a
value returned to the caller). -/
def escapesBoundary : Except PyExc PyVal → Bool
  | Except.error _ => true
  | Except.ok _ => false

/-- Whether an outcome is an escaping `NameError`. -/
def isNameErrorOutcome : Except PyExc PyVal → Bool
  | Except.error (PyExc.nameError _) => true
  | _ => false

/-- Rational value of a successful numeric outcome, `none` otherwise. -/
def resultRat : Except PyExc PyVal → Option ℚ
  | Except.ok (PyVal.num v) => some v.toRat
  | _ => none

/-- Mathematically correct value of an expression, on the exactly
representable fragment: literals, the four arithmetic operators (division
defined away from zero) and `sqrt` where the root is rational.  This is the
specification-side denotation the functional-correctness claim compares
`evaluate` against; it is `none` on identifiers, on the transcendental
functions and wherever the true value is irrational, where no exact
rational answer exists to compare with. -/
def mathValue : Expr → Option ℚ
  | .intLit n => some (n : ℚ)
  | .floatLit q => some q
  | .ident _ => none
  | .neg a => (mathValue a).map (fun x => -x)
  | .binop op a b =>
    match mathValue a, mathValue b with
    | some x, some y =>
      match op with
      | .add => some (x + y)
      | .sub => some (x - y)
      | .mul => some (x * y)
      | .div => if y = 0 then none else some (x / y)
    | _, _ => none
  | .call f args =>
    if f = "sqrt" then
      match args with
      | [a] => (mathValue a).bind ratSqrtQ
      | _ => none
    else none

namespace Calculator

/-- Python `str.isdigit` on the buffer elements the UI appends (restricted
to ASCII, the only characters the calculator produces): nonempty and all
characters decimal digits. -/
def isdigitStr (s : String) : Bool :=
  !(s.isEmpty) && s.toList.all (fun c => c.isDigit)

/-- Direct translation of `Calculator._remove_last_digit` acting on the
`__current_input` buffer: traverse the buffer from the end, find the first
element that is a digit, look up that element with `list.index` (which
returns the index of its FIRST occurrence in the buffer), and keep only the
prefix strictly before that index.  The `ValueError` branch of the source
is unreachable, since `list.index` is only called on an element found in
the list. -/
def remove_last_digit (current : List String) : List String :=
  match current.reverse.find? isdigitStr with
  | none => current
  | some element => current.take (current.indexOf element)

/-- Modelled from the spec (and from the comments of the source itself):
remove the most recently appended digit and everything after it, that is,
truncate strictly before the POSITION of the last element classified as a
digit.  Used as the comparison point for the delete-last claim. -/
def remove_last_digit_described (current : List String) : List String :=
  match current.reverse.findIdx? isdigitStr with
  | none => current
  | some j => current.take (current.length - 1 - j)

end Calculator

/-- Rational denotation of a binary operator (specification side). -/
def binOpQ : BinOp → ℚ → ℚ → ℚ
  | .add, x, y => x + y
  | .sub, x, y => x - y
  | .mul, x, y => x * y
  | .div, x, y => x / y

/-- Helper: an exact rational square root never exists for a negative
argument. -/
theorem ratSqrtQ_not_neg {x q : ℚ} (h : ratSqrtQ x = some q) : ¬ x < 0 := by
  intro hx
  rw [ratSqrtQ, if_pos hx] at h
  exact Option.noConfusion h

/-- Helper: on the exactly representable fragment, every identifier the
compiled code would resolve is in the allow-list (the only name such an
expression can mention is `sqrt`). -/
theorem mathValue_names : ∀ (e : Expr) (q : ℚ), mathValue e = some q →
    ∀ n ∈ coNames e, Calculator.ALLOWED_NAMES.contains n = true
  | .intLit _, q, hm => by simp [coNames]
  | .floatLit _, q, hm => by simp [coNames]
  | .ident s, q, hm => by simp [mathValue] at hm
  | .neg a, q, hm => by
    simp only [mathValue] at hm
    cases hx : mathValue a with
    | none => rw [hx] at hm; exact absurd hm (by simp)
    | some x =>
      simp only [coNames]
      exact mathValue_names a x hx
  | .binop op a b, q, hm => by
    simp only [mathValue] at hm
    cases ha : mathValue a with
    | none => rw [ha] at hm; exact absurd hm (by simp)
    | some x =>
      cases hb : mathValue b with
      | none => rw [ha, hb] at hm; exact absurd hm (by simp)
      | some y =>
        simp only [coNames]
        intro n hn
        rcases List.mem_append.mp hn with h | h
        · exact mathValue_names a x ha n h
        · exact mathValue_names b y hb n h
  | .call f [], q, hm => by
    simp only [mathValue] at hm
    split at hm <;> simp_all
  | .call f [a], q, hm => by
    simp only [mathValue] at hm
    by_cases hf : f = "sqrt"
    · subst hf
      rw [if_pos rfl] at hm
      cases hx : mathValue a with
      | none => rw [hx] at hm; exact absurd hm (by simp)
      | some x =>
        simp only [coNames, coNamesList, List.append_nil]
        intro n hn
        rcases List.mem_cons.mp hn with h | h
        · subst h; with_unfolding_all rfl
        · exact mathValue_names a x hx n h
    · rw [if_neg hf] at hm
      exact absurd hm (by simp)
  | .call f (a :: b :: rest), q, hm => by
    simp only [mathValue] at hm
    split at hm <;> simp_all

/-- Helper: negation commutes with the rational content. -/
theorem toRat_negV (v : NumVal) : (negV v).toRat = -v.toRat := by
  cases v <;> simp [negV, NumVal.toRat]

/-- Helper: away from division by zero, `applyBin` succeeds and its result
carries the rational denotation of the operator. -/
theorem applyBin_ok (op : BinOp) (va vb : NumVal) (h : op = BinOp.div → vb.toRat ≠ 0) :
    ∃ v, applyBin op va vb = Except.ok v ∧ v.toRat = binOpQ op va.toRat vb.toRat := by
  cases op with
  | add =>
    cases va with
    | intV m =>
      cases vb with
      | intV n => exact ⟨.intV (m + n), rfl, by simp [NumVal.toRat, binOpQ]⟩
      | floatV y => exact ⟨_, rfl, rfl⟩
    | floatV x => exact ⟨_, rfl, rfl⟩
  | sub =>
    cases va with
    | intV m =>
      cases vb with
      | intV n => exact ⟨.intV (m - n), rfl, by simp [NumVal.toRat, binOpQ]⟩
      | floatV y => exact ⟨_, rfl, rfl⟩
    | floatV x => exact ⟨_, rfl, rfl⟩
  | mul =>
    cases va with
    | intV m =>
      cases vb with
      | intV n => exact ⟨.intV (m * n), rfl, by simp [NumVal.toRat, binOpQ]⟩
      | floatV y => exact ⟨_, rfl, rfl⟩
    | floatV x => exact ⟨_, rfl, rfl⟩
  | div =>
    refine ⟨.floatV (va.toRat / vb.toRat), ?_, by simp [NumVal.toRat, binOpQ]⟩
    rw [applyBin.eq_def]
    simp [h rfl]

/-- Helper: on the exactly representable fragment the tree-walking
evaluator succeeds and returns exactly the mathematical value. -/
theorem mathValue_evalE : ∀ (e : Expr) (q : ℚ), mathValue e = some q →
    ∃ v : NumVal, (evalE e).1 = Except.ok v ∧ NumVal.toRat v = q
  | .intLit n, q, hm => by
    simp only [mathValue, Option.some.injEq] at hm
    refine ⟨.intV n, by simp [evalE], ?_⟩
    simp [NumVal.toRat, ← hm]
  | .floatLit x, q, hm => by
    simp only [mathValue, Option.some.injEq] at hm
    exact ⟨.floatV x, by simp [evalE], by simp [NumVal.toRat, hm]⟩
  | .ident s, q, hm => by simp [mathValue] at hm
  | .neg a, q, hm => by
    simp only [mathValue] at hm
    cases hx : mathValue a with
    | none => rw [hx] at hm; exact absurd hm (by simp)
    | some x =>
      rw [hx] at hm
      have hm2 : -x = q := Option.some.inj hm
      obtain ⟨v, hv, hr⟩ := mathValue_evalE a x hx
      cases hea : evalE a with
      | mk r k =>
        rw [hea] at hv
        have hv2 : r = Except.ok v := hv
        refine ⟨negV v, ?_, by rw [toRat_negV, hr, hm2]⟩
        simp [evalE, hea, hv2]
  | .binop op a b, q, hm => by
    simp only [mathValue] at hm
    cases ha : mathValue a with
    | none => rw [ha] at hm; exact absurd hm (by simp)
    | some x =>
      cases hb : mathValue b with
      | none => rw [ha, hb] at hm; exact absurd hm (by simp)
      | some y =>
        rw [ha, hb] at hm
        obtain ⟨va, hva, hra⟩ := mathValue_evalE a x ha
        obtain ⟨vb, hvb, hrb⟩ := mathValue_evalE b y hb
        have hy0 : op = BinOp.div → vb.toRat ≠ 0 := by
          intro hop h0
          subst hop
          rw [hrb] at h0
          rw [h0] at hm
          simp at hm
        obtain ⟨v, hv, hr⟩ := applyBin_ok op va vb hy0
        cases hea : evalE a with
        | mk r1 k1 =>
          cases heb : evalE b with
          | mk r2 k2 =>
            rw [hea] at hva
            rw [heb] at hvb
            have hva2 : r1 = Except.ok va := hva
            have hvb2 : r2 = Except.ok vb := hvb
            refine ⟨v, ?_, ?_⟩
            · simp [evalE, hea, heb, hva2, hvb2, hv]
            · rw [hr, hra, hrb]
              cases op with
              | add => simpa [binOpQ] using hm
              | sub => simpa [binOpQ] using hm
              | mul => simpa [binOpQ] using hm
              | div =>
                have hmd : (if y = 0 then none else some (x / y)) = some q := hm
                have hy : y ≠ 0 := by
                  intro h0; rw [h0] at hmd; simp at hmd
                rw [if_neg hy] at hmd
                simpa [binOpQ] using hmd
  | .call f [], q, hm => by
    simp only [mathValue] at hm
    split at hm <;> simp_all
  | .call f [a], q, hm => by
    simp only [mathValue] at hm
    by_cases hf : f = "sqrt"
    · subst hf
      rw [if_pos rfl] at hm
      cases hx : mathValue a with
      | none => rw [hx] at hm; exact absurd hm (by simp)
      | some x =>
        rw [hx] at hm
        have hm2 : ratSqrtQ x = some q := hm
        obtain ⟨v, hv, hr⟩ := mathValue_evalE a x hx
        cases hea : evalE a with
        | mk r k =>
          rw [hea] at hv
          have hv2 : r = Except.ok v := hv
          refine ⟨.floatV q, ?_, by simp [NumVal.toRat]⟩
          have hnn : ¬ v.toRat < 0 := by rw [hr]; exact ratSqrtQ_not_neg hm2
          simp [evalE, evalArgs, hea, hv2, applyFunc, hnn, hr, hm2]
          exact not_lt.mp (ratSqrtQ_not_neg hm2)
    · rw [if_neg hf] at hm
      exact absurd hm (by simp)
  | .call f (a :: b :: rest), q, hm => by
    simp only [mathValue] at hm
    split at hm <;> simp_all

/-- Helper: on the exactly representable fragment the name scan of
`evaluate` finds no disallowed name. -/
theorem names_ok_find_none (e : Expr) (q : ℚ) (hm : mathValue e = some q) :
    (coNames e).find? (fun name => !(Calculator.ALLOWED_NAMES.contains name)) = none := by
  rw [List.find?_eq_none]
  intro x hx
  simpa using mathValue_names e q hm x hx

/-- C5: for every expression that parses and is composed only of numeric
literals, arithmetic operators and allow-listed function names — stated
over the fragment whose mathematically correct value is an exact rational,
the fragment on which an exact comparison is expressible — `evaluate`
returns a Number equal to that mathematically correct value.  The two
examples of the claim, `2 + 3 * 4 = 14` and `sqrt(16) = 4.0`, instantiate
it in the witness. -/
theorem claim_c5_functional_correctness (s : String) (e : Expr) (q : ℚ)
    (hp : compileExpr s = some e) (hm : mathValue e = some q) :
    resultRat (evaluate s) = some q := by
  obtain ⟨v, hv, hr⟩ := mathValue_evalE e q hm
  cases hea : evalE e with
  | mk r k =>
    rw [hea] at hv
    have hv2 : r = Except.ok v := hv
    simp only [evaluate, evaluateCounted, hp, names_ok_find_none e q hm, hea, hv2,
      resultRat, hr]

/-- Witness for C5 at the two concrete examples of the claim. -/
theorem claim_c5_witness :
    resultRat (evaluate "2 + 3 * 4") = some 14 ∧ resultRat (evaluate "sqrt(16)") = some 4 :=
  ⟨claim_c5_functional_correctness "2 + 3 * 4"
      (Expr.binop BinOp.add (Expr.intLit 2) (Expr.binop BinOp.mul (Expr.intLit 3) (Expr.intLit 4)))
      14 (by with_unfolding_all rfl) (by with_unfolding_all rfl),
   claim_c5_functional_correctness "sqrt(16)" (Expr.call "sqrt" [Expr.intLit 16])
      4 (by with_unfolding_all rfl) (by with_unfolding_all rfl)⟩

/-- C1: for every input whose compiled form mentions any identifier outside
the allow-list, the allow-list check fires strictly before evaluation:
zero evaluation operations execute (the operation count of the faithful
instrumented evaluator is zero) and the outcome is the NameError raised by
the pre-evaluation scan. -/
theorem claim_c1_check_before_eval (s : String) (e : Expr) (n : String)
    (hp : compileExpr s = some e) (hmem : n ∈ coNames e)
    (hbad : Calculator.ALLOWED_NAMES.contains n = false) :
    (evaluateCounted s).2 = 0 ∧ isNameErrorOutcome (evaluate s) = true := by
  have hfind : ((coNames e).find?
      (fun name => !(Calculator.ALLOWED_NAMES.contains name))).isSome := by
    rw [List.find?_isSome]
    exact ⟨n, hmem, by simpa using hbad⟩
  obtain ⟨m, hfm⟩ := Option.isSome_iff_exists.mp hfind
  constructor
  · simp only [evaluateCounted, hp, hfm]
  · simp only [evaluate, evaluateCounted, hp, hfm, isNameErrorOutcome]

/-- Witness for C1 at the disallowed identifier `foo`. -/
theorem claim_c1_witness :
    (evaluateCounted "foo").2 = 0 ∧ isNameErrorOutcome (evaluate "foo") = true :=
  claim_c1_check_before_eval "foo" (Expr.ident "foo") "foo"
    (by with_unfolding_all rfl) (by simp [coNames]) (by with_unfolding_all rfl)

/-- Counterexample to C2 as stated: on the disallowed name `foo` the
NameError is an exception escaping the `evaluate` boundary, not a failure
value returned to the caller. -/
theorem claim_c2_counterexample : escapesBoundary (evaluate "foo") = true := by
  with_unfolding_all rfl

/-- C2 as amended: for every parsed expression referencing an identifier
outside the allow-list, `evaluate` RAISES a NameError whose message names
the offending identifier (the first such name in `co_names` order); the
exception escapes the `evaluate` boundary instead of being returned as a
value. -/
theorem claim_c2_nameerror_escapes (s : String) (e : Expr) (n : String)
    (hp : compileExpr s = some e)
    (hfind : (coNames e).find?
      (fun name => !(Calculator.ALLOWED_NAMES.contains name)) = some n) :
    evaluate s =
      Except.error (PyExc.nameError ("The use of \x27" ++ n ++ "\x27 is not allowed")) := by
  simp only [evaluate, evaluateCounted, hp, hfind]

/-- Witness for C2 (amended) at the identifier `foo`. -/
theorem claim_c2_witness :
    evaluate "foo" =
      Except.error (PyExc.nameError ("The use of \x27" ++ "foo" ++ "\x27 is not allowed")) :=
  claim_c2_nameerror_escapes "foo" (Expr.ident "foo") "foo"
    (by with_unfolding_all rfl) (by with_unfolding_all rfl)

/-- Counterexample to C3 as stated: `evaluate "1/0"` does not return a
failure value — the fault escapes the boundary as an exception and no
value of any kind is returned. -/
theorem claim_c3_counterexample :
    escapesBoundary (evaluate "1/0") = true ∧ resultRat (evaluate "1/0") = none := by
  constructor <;> with_unfolding_all rfl

/-- C3 as amended: the source has no handler around its `eval` call, so
every runtime evaluation fault on an expression that parses and passes the
allow-list check propagates uncaught past the `evaluate` boundary —
division by zero in particular raises ZeroDivisionError. -/
theorem claim_c3_fault_propagates (s : String) (e : Expr) (ex : PyExc) (k : Nat)
    (hp : compileExpr s = some e)
    (hok : (coNames e).find?
      (fun name => !(Calculator.ALLOWED_NAMES.contains name)) = none)
    (hf : evalE e = (Except.error ex, k)) :
    evaluate s = Except.error ex := by
  simp only [evaluate, evaluateCounted, hp, hok, hf]

/-- Witness for C3 (amended): `evaluate "1/0"` raises ZeroDivisionError. -/
theorem claim_c3_witness :
    evaluate "1/0" = Except.error (PyExc.zeroDivisionError "division by zero") :=
  claim_c3_fault_propagates "1/0"
    (Expr.binop BinOp.div (Expr.intLit 1) (Expr.intLit 0))
    (PyExc.zeroDivisionError "division by zero") 3
    (by with_unfolding_all rfl) (by with_unfolding_all rfl) (by with_unfolding_all rfl)

/-- Counterexample to C4 as stated: on the unparsable string `2 +` the
result is the bare string `"ERROR"` delivered through the ordinary return
channel — there is no structured failure variant carrying a kind. -/
theorem claim_c4_counterexample : evaluate "2 +" = Except.ok (PyVal.strV "ERROR") := by
  with_unfolding_all rfl

/-- C4 as amended: for every string that does not parse under the
arithmetic grammar, `evaluate` returns the plain untagged string
`"ERROR"` (not a structured SyntaxError failure value) and no exception
escapes the evaluator boundary. -/
theorem claim_c4_error_string_returned (s : String) (hp : compileExpr s = none) :
    evaluate s = Except.ok (PyVal.strV "ERROR") ∧ escapesBoundary (evaluate s) = false := by
  constructor <;> simp [evaluate, evaluateCounted, hp, escapesBoundary]

/-- Witness for C4 (amended) at the input `2 +`. -/
theorem claim_c4_witness :
    evaluate "2 +" = Except.ok (PyVal.strV "ERROR") ∧
      escapesBoundary (evaluate "2 +") = false :=
  claim_c4_error_string_returned "2 +" (by with_unfolding_all rfl)

/-- C6, recorded as a code bug: on the buffer `["1", "+", "1"]` the
described behaviour (and the stated intent of the source comments) keeps
`["1", "+"]` — truncate at the position of the LAST digit — but the code
calls `list.index`, which finds the FIRST occurrence of the digit value
`"1"`, so the whole buffer is discarded. -/
theorem claim_c6_delete_last_truncates_at_first_match :
    Calculator.remove_last_digit ["1", "+", "1"] = [] ∧
      Calculator.remove_last_digit_described ["1", "+", "1"] = ["1", "+"] := by
  constructor <;> with_unfolding_all rfl

/-- C7: the empty string is handled gracefully: `evaluate ""` returns the
designated failure marker of the syntax-failure path (the string
`"ERROR"`) through the ordinary return channel, and no exception escapes. -/
theorem claim_c7_empty_input :
    evaluate "" = Except.ok (PyVal.strV "ERROR") ∧ escapesBoundary (evaluate "") = false := by
  constructor <;> with_unfolding_all rfl

/-- C8: no entry of the allow-list mapping starts with the double
underscore reserved prefix — immediate from the exclusion filter the
source builds the mapping with. -/
theorem claim_c8_no_dunder_names (k : String) (hk : k ∈ Calculator.ALLOWED_NAMES) :
    k.startsWith "__" = false := by
  rw [Calculator.ALLOWED_NAMES] at hk
  have := List.of_mem_filter hk
  simpa using this

/-- Witness for C8 at the allow-list entry `sqrt`. -/
theorem claim_c8_witness :
    ("sqrt" ∈ Calculator.ALLOWED_NAMES) ∧ "sqrt".startsWith "__" = false :=
  ⟨by with_unfolding_all decide,
   claim_c8_no_dunder_names "sqrt" (by with_unfolding_all decide)⟩

/-- C9: `evaluate` is a deterministic pure function of its input string:
equal inputs give equal results.  In this embedding the property is
structural — the source reads only the fixed class attribute
`ALLOWED_NAMES`, and its diagnostic printing does not influence the
result, so `evaluate` is a function of the input alone. -/
theorem claim_c9_deterministic (s t : String) (h : s = t) : evaluate s = evaluate t := by
  rw [h]

/-- Witness for C9: two calls on the same concrete input agree. -/
theorem claim_c9_witness : evaluate "2" = evaluate "2" :=
  claim_c9_deterministic "2" "2" rfl

/-- C10: for every syntactically invalid expression string the result is
the literal string `"ERROR"`, delivered through the same `Except.ok`
return channel as a successful number — a plain value with no tag or
kind, exactly as the implicit claim reads off the source. -/
theorem claim_c10_untagged_error_string (s : String) (hp : compileExpr s = none) :
    evaluate s = Except.ok (PyVal.strV "ERROR") := by
  simp [evaluate, evaluateCounted, hp]

/-- Witness for C10 at the unparsable input consisting of one closing
parenthesis. -/
theorem claim_c10_witness : evaluate ")" = Except.ok (PyVal.strV "ERROR") :=
  claim_c10_untagged_error_string ")" (by with_unfolding_all rfl)
